import Mathlib

set_option maxRecDepth 2000000
set_option maxHeartbeats 4000000

/-!
Shallow embedding of the trading engine core:
`app/indicators.py`, `app/strategy/mean_reversion.py`, `app/risk_guard.py`,
and the aggregation / evaluation cycle of `app/engine.py`.

Modelling conventions:
* Python floats are modelled as exact rationals (`ℚ`).
* numpy NaN is modelled as `none : Option ℚ`; arithmetic on possibly-NaN
  values propagates `none`, and any comparison with a NaN operand is `false`,
  matching IEEE comparison semantics used by the source.
* Entries that the source leaves as uninitialized memory (`np.divide` with a
  false `where` mask writes nothing into uninitialized output) are also
  modelled as `none`; every theorem below only evaluates inputs on which such
  entries never flow into the observed result.
* A numpy square root is irrational in general; `ratSqrt` returns the exact
  root when it is rational and `none` otherwise.  Concrete inputs used by the
  theorems are chosen so that every square root that is actually read is
  rational, and the rolling-deviation value claims are stated about the
  squared series `stdSq` (the source's `std` is its elementwise square root).
* A Python exception escaping a function is modelled by an `Option`-valued
  result being `none` (e.g. `_rolling_window` raising `ValueError` when the
  window exceeds the array size, or an out-of-bounds write in `rsi`/`atr`/
  `adx` for short inputs).
-/

namespace Algo

/-- NaN-propagating value: `none` models numpy NaN / undefined. -/
abbrev QN := Option ℚ

/-- Elementwise binary arithmetic with NaN propagation. -/
def omap2 (f : ℚ → ℚ → ℚ) : QN → QN → QN
  | some a, some b => some (f a b)
  | _, _ => none

/-- `a < b` with NaN semantics: false if either side is NaN. -/
def oLT : QN → QN → Bool
  | some a, some b => decide (a < b)
  | _, _ => false

/-- `a > b` with NaN semantics: false if either side is NaN. -/
def oGT : QN → QN → Bool
  | some a, some b => decide (b < a)
  | _, _ => false

/-- `a >= b` with NaN semantics: false if either side is NaN. -/
def oGE : QN → QN → Bool
  | some a, some b => decide (b ≤ a)
  | _, _ => false

/-- Mean of a list of rationals (`[]` gives `0`, never read on that case). -/
def listMean (l : List ℚ) : ℚ := l.sum / l.length

/-- Population variance (`ddof=0`): mean of squared deviations. -/
def popVar (l : List ℚ) : ℚ :=
  listMean (l.map (fun x => (x - listMean l) * (x - listMean l)))

/-- Fuel-driven integer square root by bisection (fuel 128 covers all `n < 2^128`). -/
def isqrtAux : ℕ → ℕ → ℕ → ℕ → ℕ
  | 0, lo, _, _ => lo
  | fuel + 1, lo, hi, n =>
    if lo < hi then
      let mid := (lo + hi + 1) / 2
      if mid * mid ≤ n then isqrtAux fuel mid hi n else isqrtAux fuel lo (mid - 1) n
    else lo

/-- Integer square root (exact floor). -/
def isqrt (n : ℕ) : ℕ := isqrtAux 128 0 n n

/-- Exact rational square root: `some r` with `r * r = q` when it exists, else `none`.
A reduced fraction has a rational root iff numerator and denominator are perfect squares. -/
def ratSqrt (q : ℚ) : Option ℚ :=
  if q < 0 then none
  else
    let a := isqrt q.num.toNat
    let b := isqrt q.den
    if a * a = q.num.toNat ∧ b * b = q.den then some ((a : ℚ) / (b : ℚ)) else none

/-! ## `app/indicators.py` -/

/-- Shared rolling-window scheme of `sma`/`std` (via `_rolling_window`):
`none` (exception) when the window exceeds the input length (`ValueError` in
`_rolling_window`) or the window is `0` (shape-mismatch `ValueError` in the
final broadcast); otherwise the first `window - 1` entries are NaN and entry
`j + window - 1` is `f` of the window starting at `j`. -/
def rollingApply (f : List ℚ → ℚ) (arr : List ℚ) (window : ℕ) : Option (List QN) :=
  if window = 0 ∨ arr.length < window then none
  else
    some (List.replicate (window - 1) none ++
      (List.range (arr.length - window + 1)).map (fun j => some (f ((arr.drop j).take window))))

/-- `sma(arr, window)`: rolling mean. -/
def sma (arr : List ℚ) (window : ℕ) : Option (List QN) := rollingApply listMean arr window

/-- Squared `std(arr, window)`: the rolling population variance.  The source's
`std` is the elementwise square root of this series; lengths and NaN positions
coincide. -/
def stdSq (arr : List ℚ) (window : ℕ) : Option (List QN) := rollingApply popVar arr window

/-- `std(arr, window)` itself: elementwise square root of `stdSq`, `none` where
the exact root is irrational (see module comment). -/
def stdDev (arr : List ℚ) (window : ℕ) : Option (List QN) :=
  (stdSq arr window).map (List.map (fun o => o.bind ratSqrt))

/-- `bollinger_bands(close, window, num_std)` returning `(lower, middle, upper)`. -/
def bollinger_bands (close : List ℚ) (window : ℕ) (num_std : ℚ) :
    Option (List QN × List QN × List QN) :=
  (sma close window).bind fun ma =>
  (stdDev close window).map fun sd =>
    (List.zipWith (omap2 (fun m s => m - num_std * s)) ma sd,
     ma,
     List.zipWith (omap2 (fun m s => m + num_std * s)) ma sd)

/-- The `1e-10` guard used by `rsi` and `adx`. -/
def eps : ℚ := 1 / 10000000000

/-- Wilder smoothing scan: `avg[i] = (avg[i-1]*(p-1) + v[i]) / p`. -/
def wilder (p : ℚ) (seed : ℚ) (vals : List ℚ) : List ℚ :=
  List.scanl (fun prev v => (prev * (p - 1) + v) / p) seed vals

/-- `np.diff(close, prepend=close[0])`: first difference with a leading `0`. -/
def diffPrepend (close : List ℚ) : List ℚ :=
  List.zipWith (fun cur prev => cur - prev) close (close.headD 0 :: close.dropLast)

/-- `rsi(close, period)`.  `none` when the seed write `avg_gain[period]` would
be out of bounds (input shorter than `period + 1`) or `period = 0` (mean of an
empty slice). -/
def rsi (close : List ℚ) (period : ℕ) : Option (List QN) :=
  if period = 0 ∨ close.length < period + 1 then none
  else
    let diff := diffPrepend close
    let gain := diff.map (fun d => max d 0)
    let loss := diff.map (fun d => max (-d) 0)
    let seedG := listMean ((gain.drop 1).take period)
    let seedL := listMean ((loss.drop 1).take period)
    let avgG := wilder period seedG (gain.drop (period + 1))
    let avgL := wilder period seedL (loss.drop (period + 1))
    let rsiTail := List.zipWith (fun g l => some (100 - 100 / (1 + g / (l + eps)))) avgG avgL
    some (List.replicate (period + 1) (none : QN) ++ rsiTail)

/-- `np.roll(l, 1)` with the first entry then overwritten by `l[0]`
(`prev_close` in `atr`): i.e. `l[0] :: l.dropLast`. -/
def rollFixFirst (l : List ℚ) : List ℚ := l.headD 0 :: l.dropLast

/-- True range: `max(high - low, |high - prev_close|, |low - prev_close|)`. -/
def trueRangeAt (h l pc : ℚ) : ℚ := max (h - l) (max (abs (h - pc)) (abs (l - pc)))

/-- `tr` array of `atr(high, low, close, period)`. -/
def trList (high low close : List ℚ) : List ℚ :=
  List.zipWith (fun hl pc => trueRangeAt hl.1 hl.2 pc) (List.zip high low) (rollFixFirst close)

/-- `atr(high, low, close, period)`: `none` when the seed write `atr[period]`
would be out of bounds (input shorter than `period + 1`) or `period = 0`. -/
def atr (high low close : List ℚ) (period : ℕ) : Option (List QN) :=
  if period = 0 ∨ close.length < period + 1 then none
  else
    let tr := trList high low close
    let seed := listMean ((tr.drop 1).take period)
    let tail := wilder period seed (tr.drop (period + 1))
    some (List.replicate period (none : QN) ++ tail.map some)

/-- `np.roll(l, 1)`: last element cycles to the front. -/
def roll1 (l : List ℚ) : List ℚ :=
  match l.getLast? with
  | none => []
  | some x => x :: l.dropLast

/-- Raw `+DM`: `np.maximum(high - np.roll(high, 1), 0)`. -/
def plusDMraw (high : List ℚ) : List ℚ :=
  List.zipWith (fun cur prev => max (cur - prev) 0) high (roll1 high)

/-- Raw `-DM`: `np.maximum(np.roll(low, 1) - low, 0)`. -/
def minusDMraw (low : List ℚ) : List ℚ :=
  List.zipWith (fun cur prev => max (prev - cur) 0) low (roll1 low)

/-- `+DM` after the first zeroing pass `plus_dm[plus_dm < minus_dm] = 0`
(the mask is computed from the raw arrays). -/
def plusDMz (high low : List ℚ) : List ℚ :=
  List.zipWith (fun p m => if p < m then 0 else p) (plusDMraw high) (minusDMraw low)

/-- `-DM` after the second zeroing pass `minus_dm[minus_dm <= plus_dm] = 0`,
whose mask uses the already-zeroed `+DM`. -/
def minusDMz (high low : List ℚ) : List ℚ :=
  List.zipWith (fun m p => if m ≤ p then 0 else m) (minusDMraw low) (plusDMz high low)

/-- `np.nanmean` over a window of possibly-undefined values: mean of the
defined entries, NaN when none is defined. -/
def nanmean (l : List QN) : QN :=
  let d := l.filterMap id
  if d.isEmpty then none else some (listMean d)

/-- `adx(high, low, close, period)`.  `none` when the seed write `adx[2*period]`
would be out of bounds, or when the inner `atr` call fails.  A `+DI`/`-DI`
entry is `none` where `atr` is NaN (uninitialized output of the masked
divide) or zero (float division by zero); a `DX` entry is `none` where either
`DI` is undefined or `+DI + -DI = 0` (uninitialized output, see §9 of the
spec). -/
def adx (high low close : List ℚ) (period : ℕ) : Option (List QN) :=
  if close.length < 2 * period + 1 then none
  else
    (atr high low close period).bind fun atrL =>
    let pdm := plusDMz high low
    let mdm := minusDMz high low
    let plusDI := List.zipWith (fun dm a =>
      a.bind fun av => if av = 0 then none else some (100 * (dm / av))) pdm atrL
    let minusDI := List.zipWith (fun dm a =>
      a.bind fun av => if av = 0 then none else some (100 * (dm / av))) mdm atrL
    let dx := List.zipWith (fun p m =>
      match p, m with
      | some pv, some mv =>
          if pv + mv = 0 then none else some (100 * (abs (pv - mv) / (pv + mv + eps)))
      | _, _ => none) plusDI minusDI
    let seed := nanmean ((dx.drop period).take (period + 1))
    let tail := List.scanl (fun prev d =>
      match prev, d with
      | some pv, some dv => some ((pv * ((period : ℚ) - 1) + dv) / period)
      | _, _ => none) seed (dx.drop (2 * period + 1))
    some (List.replicate (2 * period) (none : QN) ++ tail)

/-! ## Candles (row layout of `app/engine.py`: `[ts, open, high, low, close, volume]`) -/

/-- One stored candle row.  `_build_candle` produces
`np.array([minute, prices[0], prices.max(), prices.min(), prices[-1], vol])`,
i.e. fields are `[ts, open, high, low, close, volume]` (also stated by the
comment on `self.candles` in `engine.py`). -/
structure Candle where
  ts : ℕ
  opn : ℚ
  hi : ℚ
  lo : ℚ
  cls : ℚ
  vol : ℚ
  deriving DecidableEq, Repr

/-- Column access `candles[:, j]` on the engine's row layout. -/
def Candle.col (cd : Candle) : ℕ → ℚ
  | 0 => (cd.ts : ℚ)
  | 1 => cd.opn
  | 2 => cd.hi
  | 3 => cd.lo
  | 4 => cd.cls
  | _ => cd.vol

/-! ## `app/strategy/mean_reversion.py` (constructor defaults: window_bb=20,
num_std=2, period_rsi=period_atr=period_adx=14, atr_mult_trailing=1.2,
atr_mult_stop=1.5; the engine instantiates `MeanReversionSignal()` with
exactly these defaults) -/

/-- The indicator dictionary built by `MeanReversionSignal._indicators`,
given the three series it extracts from the candle matrix. -/
structure IndSet where
  close : List ℚ
  lower : List QN
  mid : List QN
  upper : List QN
  rsiL : List QN
  adxL : List QN
  atrL : List QN

/-- Body of `_indicators` after column extraction (shared between the code's
actual column choice and the claim-side reading). -/
def indicatorsCore (close high low : List ℚ) : Option IndSet :=
  (bollinger_bands close 20 2).bind fun bb =>
  (rsi close 14).bind fun r =>
  (adx high low close 14).bind fun a =>
  (atr high low close 14).map fun t =>
    ⟨close, bb.1, bb.2.1, bb.2.2, r, a, t⟩

/-- `_indicators(candles)` as written in the source:
`close = candles[:, 3]`, `high = candles[:, 1]`, `low = candles[:, 2]`.
Under the engine's documented row layout these columns are the LOW, OPEN and
HIGH respectively (see `Candle.col`). -/
def indicators (candles : List Candle) : Option IndSet :=
  indicatorsCore (candles.map (·.col 3)) (candles.map (·.col 1)) (candles.map (·.col 2))

/-- Claim-side reading of `_indicators`: the close/high/low series taken from
the columns that actually hold close (4), high (2) and low (3) in the
engine's row layout.  Used only to state how the claims read the strategy. -/
def indicatorsClaim (candles : List Candle) : Option IndSet :=
  indicatorsCore (candles.map (·.col 4)) (candles.map (·.col 2)) (candles.map (·.col 3))

/-- Last element of a NaN-carrying series (`x[-1]`); `none` also for the empty
list, which cannot occur for inputs accepted by `indicatorsCore`. -/
def lastQN (l : List QN) : QN := (l.getLast?).join

/-- Decision body of `generate` on the last bar of an indicator set. -/
def genCore (ind : IndSet) : String :=
  let closeL : QN := ind.close.getLast?
  if (lastQN ind.mid).isNone then "none"
  else if oGE (lastQN ind.adxL) (some 25) then "none"
  else if oLT closeL (lastQN ind.lower) && oLT (lastQN ind.rsiL) (some 30) then "long"
  else if oGT closeL (lastQN ind.upper) && oGT (lastQN ind.rsiL) (some 70) then "short"
  else "none"

/-- `MeanReversionSignal.generate(candles)`; `none` when `_indicators` raises
(input shorter than 29 bars). -/
def generate (candles : List Candle) : Option String :=
  (indicators candles).map genCore

/-- `generate` as the claims/spec read it: same decision body, close/high/low
taken from the columns that hold them in the engine's row layout. -/
def generateClaim (candles : List Candle) : Option String :=
  (indicatorsClaim candles).map genCore

/-- `MeanReversionSignal.should_exit(side, candles, entry_price)`;
`atr_mult_trailing = 1.2 = 6/5`. -/
def should_exit (side : String) (candles : List Candle) (entry_price : ℚ) :
    Option (Bool × ℚ) :=
  (indicators candles).bind fun ind =>
  (ind.close.getLast?).map fun close =>
    match lastQN ind.mid, lastQN ind.atrL with
    | some mid, some atrv =>
      if (side == "long" && decide (mid ≤ close)) || (side == "short" && decide (close ≤ mid)) then
        (true, close)
      else if side == "long" && decide (close ≤ entry_price - 6 / 5 * atrv) then (true, close)
      else if side == "short" && decide (entry_price + 6 / 5 * atrv ≤ close) then (true, close)
      else (false, 0)
    | _, _ => (false, 0)

/-- Python's two-argument `min`: keeps the first argument unless the second
compares strictly smaller (so a NaN second argument never wins). -/
def pymin (a b : ℚ) : ℚ := if b < a then b else a

/-- `MeanReversionSignal.initial_sl(side, atr_val, entry_price)`;
`0.015 = 3/200`, `atr_mult_stop = 1.5 = 3/2`.  The engine can pass a NaN
`atr_val`; then `min(0.015*entry, 1.5*nan)` keeps its first argument. -/
def initial_sl (side : String) (atr_val : QN) (entry_price : ℚ) : ℚ :=
  let sl_dist := match atr_val with
    | some a => pymin (3 / 200 * entry_price) (3 / 2 * a)
    | none => 3 / 200 * entry_price
  if side == "long" then entry_price - sl_dist else entry_price + sl_dist

/-! ## `app/risk_guard.py` -/

/-- Constructor parameters of `RiskGuard`. -/
structure RiskParams where
  max_daily_drawdown : ℚ
  profit_lock : ℚ
  max_trades : ℕ
  max_positions : ℕ
  max_total_risk : ℚ
  deriving DecidableEq, Repr

/-- Mutable state of a `RiskGuard` (`_date`, `trades`, `realized`,
`unrealized_risk`).  Dates are opaque integers (only equality is used). -/
structure RiskState where
  date : ℤ
  trades : ℕ
  realized : ℚ
  unrealized_risk : ℚ
  deriving DecidableEq, Repr

/-- `RiskGuard.reset()` with the current wall-clock date `today`. -/
def reset (today : ℤ) : RiskState :=
  { date := today, trades := 0, realized := 0, unrealized_risk := 0 }

/-- `RiskGuard._check_new_day()`. -/
def check_new_day (today : ℤ) (st : RiskState) : RiskState :=
  if today = st.date then st else reset today

/-- `RiskGuard.register_trade(pnl, risk_used)` (the day-rollover check runs
first, then the three field updates). -/
def register_trade (today : ℤ) (pnl risk_used : ℚ) (st : RiskState) : RiskState :=
  { date := (check_new_day today st).date,
    trades := (check_new_day today st).trades + 1,
    realized := (check_new_day today st).realized + pnl,
    unrealized_risk := max ((check_new_day today st).unrealized_risk - risk_used) 0 }

/-- `RiskGuard.allocate_risk(risk)`: returns the result and the new state. -/
def allocate_risk (g : RiskParams) (today : ℤ) (risk : ℚ) (st : RiskState) :
    Bool × RiskState :=
  if g.max_trades ≤ (check_new_day today st).trades ∨
     g.max_total_risk < (check_new_day today st).unrealized_risk + risk then
    (false, check_new_day today st)
  else
    (true, { date := (check_new_day today st).date,
             trades := (check_new_day today st).trades,
             realized := (check_new_day today st).realized,
             unrealized_risk := (check_new_day today st).unrealized_risk + risk })

/-- `RiskGuard.is_trading_allowed()`: returns the result and the new state. -/
def is_trading_allowed (g : RiskParams) (today : ℤ) (st : RiskState) :
    Bool × RiskState :=
  if (check_new_day today st).realized ≤ -(abs g.max_daily_drawdown) then
    (false, check_new_day today st)
  else if g.profit_lock ≤ (check_new_day today st).realized then
    (false, check_new_day today st)
  else (true, check_new_day today st)

/-- One call to the shared ledger, for reasoning about call sequences. -/
inductive RGOp
  | alloc (amount : ℚ)
  | register (pnl risk_used : ℚ)
  deriving DecidableEq, Repr

/-- Apply one ledger call (discarding `allocate_risk`'s boolean). -/
def rgStep (g : RiskParams) (today : ℤ) (st : RiskState) : RGOp → RiskState
  | .alloc a => (allocate_risk g today a st).2
  | .register pnl used => register_trade today pnl used st

/-- Run a sequence of ledger calls. -/
def rgRun (g : RiskParams) (today : ℤ) (ops : List RGOp) (st : RiskState) : RiskState :=
  ops.foldl (rgStep g today) st

/-- Non-negativity of the risk amounts appearing in a call sequence
(the amount of an `alloc` and the `risk_used` of a `register`). -/
def rgNonneg (ops : List RGOp) : Prop :=
  ∀ o ∈ ops, match o with
    | RGOp.alloc a => 0 ≤ a
    | RGOp.register _ used => 0 ≤ used

/-! ## `app/engine.py` -/

/-- The `settings` fields the engine reads.  `qty_step` is the second argument
of Python's `round`, which must be an `int` (the `.get` default `0.001` is a
float and would make `round` raise `TypeError`, caught by the engine loop);
it is therefore modelled as a natural number of decimal digits. -/
structure Settings where
  risk_per_trade : ℚ
  qty_step : ℕ
  leverage : ℚ
  deriving DecidableEq, Repr

/-- `10 ^ n` in `ℚ` via natural-number power. -/
def pow10 (n : ℕ) : ℚ := ((10 ^ n : ℕ) : ℚ)

/-- Round-half-to-even to an integer (Python's `round` on exact values). -/
def pyRoundInt (y : ℚ) : ℤ :=
  let f := ⌊y⌋
  let r := y - f
  if r < 1 / 2 then f
  else if 1 / 2 < r then f + 1
  else if f % 2 = 0 then f else f + 1

/-- Python's `round(x, n)` for a non-negative integer `n`: round-half-to-even
at `n` decimal digits. -/
def pyRound (x : ℚ) (n : ℕ) : ℚ := (pyRoundInt (x * pow10 n) : ℚ) / pow10 n

/-- `MeanReversionEngine._safe_qty_calc(risk_usdt, stop_dist, price)`
(`price` is unused in the source as well); `lev` is `settings.get("leverage", 10)`. -/
def safe_qty_calc (risk_usdt stop_dist price lev : ℚ) : ℚ :=
  if stop_dist = 0 then 0 else risk_usdt / stop_dist * lev

/-- The recorded position (`self.position`): side string and quantity
(the exchange order id is external and omitted). -/
structure Pos where
  side : String
  qty : ℚ
  deriving DecidableEq, Repr

/-- Observable outcome of one `_evaluate` cycle: which orders were submitted,
which risk-guard calls were made, and the new engine/risk state. -/
structure EvalOut where
  calledShouldExit : Bool
  orderQty : Option ℚ
  reduceOnlyQty : Option ℚ
  allocCalled : Option ℚ
  registered : Option (ℚ × ℚ)
  pos : Option Pos
  entry_price : ℚ
  risk : RiskState
  deriving DecidableEq, Repr

/-- A cycle with no observable effect. -/
def noopOut (pos : Option Pos) (entry : ℚ) (risk : RiskState) : EvalOut :=
  { calledShouldExit := false, orderQty := none, reduceOnlyQty := none,
    allocCalled := none, registered := none, pos := pos, entry_price := entry,
    risk := risk }

/-- The realized pnl computed by `_close_position`: the closing order side is
`"Sell"` for a long, and the sign flips for the (`"Buy"`) short close. -/
def closePnl (side : String) (price entry : ℚ) : ℚ :=
  (price - entry) / entry *
    (if (if side == "long" then "Sell" else "Buy") == "Sell" then 1 else -1) * 100

/-- `MeanReversionEngine._close_position(price)` for a held position `p`. -/
def close_position (today : ℤ) (p : Pos) (price entry : ℚ) (risk : RiskState) : EvalOut :=
  { calledShouldExit := true, orderQty := none, reduceOnlyQty := some p.qty,
    allocCalled := none, registered := some (closePnl p.side price entry, 0), pos := none,
    entry_price := entry, risk := register_trade today (closePnl p.side price entry) 0 risk }

/-- The order quantity `_open_position` computes: `close = candles[-1, 4]`,
`atr_val = _indicators(candles)["atr"][-1]`, stop from `initial_sl`, then
`round(_safe_qty_calc(balance*risk_per_trade, |close - sl|, close), qty_step)`. -/
def openQty (s : Settings) (balance : ℚ) (sig : String) (lastC : Candle)
    (atr_val : QN) : ℚ :=
  pyRound (safe_qty_calc (balance * s.risk_per_trade)
    (abs (lastC.cls - initial_sl sig atr_val lastC.cls)) lastC.cls s.leverage) s.qty_step

/-- `MeanReversionEngine._open_position(side, candles)`; `none` models an
exception escaping (impossible for the inputs `_evaluate` passes it). -/
def open_position (g : RiskParams) (today : ℤ) (s : Settings) (balance : ℚ)
    (sig : String) (candles : List Candle) (entry0 : ℚ) (risk : RiskState) :
    Option EvalOut :=
  (candles.getLast?).bind fun lastC =>
  (indicators candles).map fun ind =>
    if openQty s balance sig lastC (lastQN ind.atrL) ≤ 0 then noopOut none entry0 risk
    else if (allocate_risk g today (balance * s.risk_per_trade) risk).1 then
      { calledShouldExit := false,
        orderQty := some (openQty s balance sig lastC (lastQN ind.atrL)),
        reduceOnlyQty := none,
        allocCalled := some (balance * s.risk_per_trade), registered := none,
        pos := some { side := sig, qty := openQty s balance sig lastC (lastQN ind.atrL) },
        entry_price := lastC.cls,
        risk := (allocate_risk g today (balance * s.risk_per_trade) risk).2 }
    else
      { calledShouldExit := false, orderQty := none, reduceOnlyQty := none,
        allocCalled := some (balance * s.risk_per_trade), registered := none,
        pos := none, entry_price := entry0,
        risk := (allocate_risk g today (balance * s.risk_per_trade) risk).2 }

/-- `MeanReversionEngine._evaluate()`: one evaluation cycle, starting from
candle list `candles`, held position `pos0` with entry price `entry0`, shared
risk state `risk`, wallet balance `balance` and settings `s`. -/
def evaluate (g : RiskParams) (today : ℤ) (candles : List Candle) (pos0 : Option Pos)
    (entry0 : ℚ) (risk : RiskState) (balance : ℚ) (s : Settings) : Option EvalOut :=
  if candles.length < 100 then some (noopOut pos0 entry0 risk)
  else
    (generate candles).bind fun sig =>
    if sig == "none" then
      match pos0 with
      | some p =>
        (should_exit p.side.toLower candles entry0).map fun ep =>
          if ep.1 then close_position today p ep.2 entry0 risk
          else { noopOut pos0 entry0 risk with calledShouldExit := true }
      | none => some (noopOut pos0 entry0 risk)
    else
      match pos0 with
      | none =>
        if (is_trading_allowed g today risk).1 then
          open_position g today s balance sig candles entry0 (is_trading_allowed g today risk).2
        else some (noopOut pos0 entry0 (is_trading_allowed g today risk).2)
      | some _ => some (noopOut pos0 entry0 risk)

/-! ## Tick aggregation (`_on_trade` buffer and `_build_candle`) -/

/-- One trade print: timestamp in ms (`T`), price (`p`), volume (`v`). -/
structure Tick where
  T : ℕ
  p : ℚ
  v : ℚ
  deriving DecidableEq, Repr

/-- The 60-second bucket of a tick: `now - now % 60` with `now = T // 1000`. -/
def tickBucket (t : Tick) : ℕ :=
  let s := t.T / 1000
  s - s % 60

/-- Append to the bounded tick buffer (`deque(maxlen=60)`): oldest entries
drop off once the buffer exceeds 60. -/
def push_tick (buf : List Tick) (t : Tick) : List Tick :=
  (buf ++ [t]).drop ((buf ++ [t]).length - 60)

/-- `prices.max()` of a nonempty array (`0` on `[]`, never read there). -/
def listMaxQ : List ℚ → ℚ
  | [] => 0
  | x :: xs => xs.foldl max x

/-- `prices.min()` of a nonempty array (`0` on `[]`, never read there). -/
def listMinQ : List ℚ → ℚ
  | [] => 0
  | x :: xs => xs.foldl min x

/-- The candle recomputed by `_build_candle` from the current tick buffer:
bucket of the newest tick, OHLCV over the buffered ticks of that bucket;
`none` when the buffer is empty or the bucket selects no ticks (the source
then returns without touching the series; the second case cannot actually
occur since the newest tick always matches its own bucket). -/
def aggregated (ticks : List Tick) : Option Candle :=
  match ticks.getLast? with
  | none => none
  | some tl =>
    if (ticks.filter (fun t => tickBucket t = tickBucket tl)).isEmpty then none
    else
      some { ts := tickBucket tl,
             opn := ((ticks.filter (fun t => tickBucket t = tickBucket tl)).map (·.p)).headD 0,
             hi := listMaxQ ((ticks.filter (fun t => tickBucket t = tickBucket tl)).map (·.p)),
             lo := listMinQ ((ticks.filter (fun t => tickBucket t = tickBucket tl)).map (·.p)),
             cls := ((ticks.filter (fun t => tickBucket t = tickBucket tl)).map (·.p)).getLastD 0,
             vol := ((ticks.filter (fun t => tickBucket t = tickBucket tl)).map (·.v)).sum }

/-- Replace-or-append step of `_build_candle` (before the 500-candle cap). -/
def storeRaw (candles : List Candle) (cd : Candle) : List Candle :=
  match candles.getLast? with
  | some lastC => if lastC.ts = cd.ts then candles.dropLast ++ [cd] else candles ++ [cd]
  | none => candles ++ [cd]

/-- Replace-or-append step of `_build_candle`, then the 500-candle cap. -/
def storeCandle (candles : List Candle) (cd : Candle) : List Candle :=
  if 500 < (storeRaw candles cd).length then
    (storeRaw candles cd).drop ((storeRaw candles cd).length - 500)
  else storeRaw candles cd

/-- `MeanReversionEngine._build_candle()`. -/
def build_candle (ticks : List Tick) (candles : List Candle) : List Candle :=
  match aggregated ticks with
  | none => candles
  | some cd => storeCandle candles cd

/-- Interleaved buffer/aggregation activity: a websocket tick append or one
`_build_candle` pass. -/
inductive AggOp
  | push (t : Tick)
  | build
  deriving DecidableEq, Repr

/-- One step of the aggregation system on (tick buffer, candle list). -/
def aggStep (st : List Tick × List Candle) : AggOp → List Tick × List Candle
  | .push t => (push_tick st.1 t, st.2)
  | .build => (st.1, build_candle st.1 st.2)

/-- Run a sequence of appends and aggregation passes from the empty state. -/
def runAgg (ops : List AggOp) : List Tick × List Candle :=
  ops.foldl aggStep ([], [])

/-- Timestamps of the pushed ticks, in order. -/
def pushedTs (ops : List AggOp) : List ℕ :=
  ops.filterMap (fun o => match o with | .push t => some t.T | .build => none)

/-- Inductive invariant of the aggregation system: sorted tick buffer,
strictly increasing candle buckets, the 500 cap, the last bucket bounded by
the newest tick's bucket, and a nonempty buffer whenever candles exist. -/
def aggInv (st : List Tick × List Candle) : Prop :=
  List.Pairwise (· ≤ ·) (st.1.map Tick.T) ∧
  List.Pairwise (· < ·) (st.2.map Candle.ts) ∧
  st.2.length ≤ 500 ∧
  (∀ cd, st.2.getLast? = some cd → ∀ t, st.1.getLast? = some t → cd.ts ≤ tickBucket t) ∧
  (st.2 ≠ [] → st.1 ≠ [])

/-! ## Concrete inputs used by the counterexample/witness theorems -/

/-- Low column of `c1Input`: constant `10`, then `13, 11, 9, 10 ... 10, 7` on
bars 80-99.  The last 20 lows have mean `10` and population variance `1`, so
the lower Bollinger band of the low series is `8` and the last low `7` is
below it. -/
def c1low (i : ℕ) : ℚ :=
  if i < 80 then 10
  else if i = 80 then 13
  else if i = 81 then 11
  else if i = 82 then 9
  else if i = 99 then 7
  else 10

/-- A tiny price drift making every open/high strictly increase, so that no
`DX` entry of either column reading falls on the undefined-memory case. -/
def tdelta : ℚ := 1 / 10000000000000

/-- 100 engine-built candles: `ts = 60 i`, `open = 20 + i·δ`, `high = 21 + i·δ`,
`low = c1low i`, `close = 20`, `volume = 1`.  Every row satisfies
`low ≤ open, close ≤ high` and is realizable from ticks. -/
def c1Input : List Candle :=
  (List.range 100).map fun i =>
    { ts := 60 * i, opn := 20 + i * tdelta, hi := 21 + i * tdelta,
      lo := c1low i, cls := 20, vol := 1 }

/-- 100 identical candles `[ts 60 i, open 20, high 21, low 10, close 20, vol 1]`:
the strategy's "close" (column 3, i.e. the low 10) sits exactly on its middle
band, so `should_exit("long", ...)` triggers and returns the low as the exit
price, while the true close is 20. -/
def c2Input : List Candle :=
  (List.range 100).map fun i =>
    { ts := 60 * i, opn := 20, hi := 21, lo := 10, cls := 20, vol := 1 }

/-- Modelled from the spec: "size quantity = ... rounded to the configured
quantity step" — rounding a value to the nearest integer multiple of a step
(ties to even).  Used only to state how the claim's reading of the sizing
rule diverges from the code's `round(qty, qty_step)` (decimal digits). -/
def roundToStep (x step : ℚ) : ℚ :=
  if step = 0 then x else (pyRoundInt (x / step) : ℚ) * step

/-- Last ATR value the strategy computes for a candle series (NaN when the
indicator computation fails or the entry is undefined). -/
def atrLastOf (candles : List Candle) : QN :=
  match indicators candles with
  | some ind => lastQN ind.atrL
  | none => none

/-- Permissive risk parameters used by the engine-level concrete runs:
drawdown 5%, profit lock 100%, max 5 trades, max risk 1000. -/
def gTest : RiskParams :=
  { max_daily_drawdown := 5, profit_lock := 100, max_trades := 5,
    max_positions := 10, max_total_risk := 1000 }

/-- RiskGuard parameters of the C6 scenario: `max_trades = 3`, budget 100. -/
def g6 : RiskParams :=
  { max_daily_drawdown := 5, profit_lock := 100, max_trades := 3,
    max_positions := 10, max_total_risk := 100 }

/-- Engine settings of the concrete runs: `risk_per_trade = 1%`,
`qty_step = 2` (an int, as `round` requires), `leverage = 10`. -/
def sTest : Settings := { risk_per_trade := 1 / 100, qty_step := 2, leverage := 10 }

/-- Tick sequence with out-of-order timestamps: a tick of bucket 120 is
aggregated, then a tick of bucket 0 arrives and is aggregated. -/
def c7ops : List AggOp :=
  [AggOp.push { T := 120000, p := 100, v := 1 }, AggOp.build,
   AggOp.push { T := 30000, p := 50, v := 1 }, AggOp.build]

/-- A stored candle of bucket 0 used by the aggregation witnesses. -/
def cOld : Candle := { ts := 0, opn := 5, hi := 5, lo := 5, cls := 5, vol := 1 }

/-- The candle aggregated from the single tick `tk30` (bucket 0). -/
def cAgg0 : Candle := { ts := 0, opn := 50, hi := 50, lo := 50, cls := 50, vol := 1 }

/-- The candle aggregated from the single tick `tk90` (bucket 60). -/
def cAgg60 : Candle := { ts := 60, opn := 7, hi := 7, lo := 7, cls := 7, vol := 2 }

/-- Test ticks for the aggregation witnesses. -/
def tk30 : Tick := { T := 30000, p := 50, v := 1 }

/-- Tick in bucket 120. -/
def tk120 : Tick := { T := 120000, p := 100, v := 1 }

/-- Tick in bucket 60. -/
def tk90 : Tick := { T := 90000, p := 7, v := 2 }

/-! # Theorems -/

lemma getD_zipWith {α β γ : Type} (f : α → β → γ) (as : List α) (bs : List β)
    (i : ℕ) (d1 : α) (d2 : β) (d3 : γ) (h1 : i < as.length) (h2 : i < bs.length) :
    (List.zipWith f as bs).getD i d3 = f (as.getD i d1) (bs.getD i d2) := by
  induction as generalizing bs i with
  | nil => simp at h1
  | cons a as ih =>
    cases bs with
    | nil => simp at h2
    | cons b bs =>
      cases i with
      | zero => simp
      | succ n =>
        simp only [List.zipWith_cons_cons, List.getD_cons_succ]
        exact ih bs n (by simpa using h1) (by simpa using h2)

lemma roll1_getD (l : List ℚ) (i : ℕ) (d : ℚ) (h1 : 1 ≤ i) (h2 : i < l.length) :
    (roll1 l).getD i d = l.getD (i - 1) d := by
  unfold roll1
  cases hl : l.getLast? with
  | none =>
    rw [List.getLast?_eq_none_iff] at hl
    subst hl; simp at h2
  | some x =>
    obtain ⟨j, rfl⟩ : ∃ j, i = j + 1 := ⟨i - 1, by omega⟩
    simp only [List.getD_cons_succ, Nat.add_sub_cancel]
    rw [List.getD_eq_getElem?_getD, List.getD_eq_getElem?_getD, List.getElem?_dropLast,
      if_pos (by omega)]

lemma zipWith_length_getD {α β γ : Type} (f : α → β → γ) (as : List α) (bs : List β) :
    (List.zipWith f as bs).length = min as.length bs.length :=
  List.length_zipWith ..

lemma plusDMraw_getD (high : List ℚ) (i : ℕ) (h1 : 1 ≤ i) (h2 : i < high.length) :
    (plusDMraw high).getD i 0 = max (high.getD i 0 - high.getD (i - 1) 0) 0 := by
  have hr : (roll1 high).length = high.length := by
    unfold roll1
    cases hl : high.getLast? with
    | none => rw [List.getLast?_eq_none_iff] at hl; subst hl; rfl
    | some x =>
      have : high ≠ [] := by
        intro h; subst h; simp at hl
      simp [List.length_dropLast]
      have : 0 < high.length := List.length_pos.mpr this
      omega
  unfold plusDMraw
  rw [getD_zipWith _ _ _ i 0 0 0 h2 (by omega), roll1_getD high i 0 h1 h2]

lemma minusDMraw_getD (low : List ℚ) (i : ℕ) (h1 : 1 ≤ i) (h2 : i < low.length) :
    (minusDMraw low).getD i 0 = max (low.getD (i - 1) 0 - low.getD i 0) 0 := by
  have hr : (roll1 low).length = low.length := by
    unfold roll1
    cases hl : low.getLast? with
    | none => rw [List.getLast?_eq_none_iff] at hl; subst hl; rfl
    | some x =>
      have : low ≠ [] := by
        intro h; subst h; simp at hl
      simp [List.length_dropLast]
      have : 0 < low.length := List.length_pos.mpr this
      omega
  unfold minusDMraw
  rw [getD_zipWith _ _ _ i 0 0 0 h2 (by omega), roll1_getD low i 0 h1 h2]

lemma dm_lengths (high low : List ℚ) (h : low.length = high.length) :
    (plusDMraw high).length = high.length ∧ (minusDMraw low).length = high.length := by
  constructor
  · unfold plusDMraw roll1
    cases hl : high.getLast? with
    | none => rw [List.getLast?_eq_none_iff] at hl; subst hl; rfl
    | some x =>
      have hne : high ≠ [] := by intro hh; subst hh; simp at hl
      have : 0 < high.length := List.length_pos.mpr hne
      simp [List.length_dropLast]
      omega
  · unfold minusDMraw roll1
    cases hl : low.getLast? with
    | none =>
      rw [List.getLast?_eq_none_iff] at hl; subst hl
      simp at h ⊢
      omega
    | some x =>
      have hne : low ≠ [] := by intro hh; subst hh; simp at hl
      have : 0 < low.length := List.length_pos.mpr hne
      simp [List.length_dropLast]
      omega

/-- C9: in `adx`, the two vectorized zeroing passes run in this order: first
`+DM[i]` is zeroed exactly when the raw `+DM[i] < raw -DM[i]` (strict), then
`-DM[i]` is zeroed exactly when `-DM[i] ≤` the possibly-already-zeroed
`+DM[i]`; consequently a strictly positive tie leaves `+DM[i]` unchanged and
zeroes `-DM[i]` (ties favor `+DM`). -/
theorem C9_dm_zeroing_order (high low : List ℚ) (i : ℕ)
    (h1 : 1 ≤ i) (h2 : i < high.length) (hl : low.length = high.length) :
    ((plusDMraw high).getD i 0 = max (high.getD i 0 - high.getD (i - 1) 0) 0 ∧
     (minusDMraw low).getD i 0 = max (low.getD (i - 1) 0 - low.getD i 0) 0) ∧
    (plusDMz high low).getD i 0 =
      (if (plusDMraw high).getD i 0 < (minusDMraw low).getD i 0 then 0
       else (plusDMraw high).getD i 0) ∧
    (minusDMz high low).getD i 0 =
      (if (minusDMraw low).getD i 0 ≤ (plusDMz high low).getD i 0 then 0
       else (minusDMraw low).getD i 0) ∧
    ((plusDMraw high).getD i 0 = (minusDMraw low).getD i 0 →
     0 < (plusDMraw high).getD i 0 →
     (plusDMz high low).getD i 0 = (plusDMraw high).getD i 0 ∧
     (minusDMz high low).getD i 0 = 0) := by
  obtain ⟨lp, lm⟩ := dm_lengths high low hl
  have hzp : (plusDMz high low).getD i 0 =
      (if (plusDMraw high).getD i 0 < (minusDMraw low).getD i 0 then 0
       else (plusDMraw high).getD i 0) := by
    unfold plusDMz
    rw [getD_zipWith _ _ _ i 0 0 0 (by omega) (by omega)]
  have hzm : (minusDMz high low).getD i 0 =
      (if (minusDMraw low).getD i 0 ≤ (plusDMz high low).getD i 0 then 0
       else (minusDMraw low).getD i 0) := by
    have lzp : (plusDMz high low).length = high.length := by
      unfold plusDMz
      rw [zipWith_length_getD]
      omega
    unfold minusDMz
    rw [getD_zipWith _ _ _ i 0 0 0 (by omega) (by omega)]
  refine ⟨⟨plusDMraw_getD high i h1 h2, minusDMraw_getD low i h1 (by omega)⟩, hzp, hzm, ?_⟩
  intro htie hpos
  have hz1 : (plusDMz high low).getD i 0 = (plusDMraw high).getD i 0 := by
    rw [hzp, if_neg (by rw [htie]; exact lt_irrefl _)]
  constructor
  · exact hz1
  · rw [hzm, hz1, if_pos (le_of_eq htie.symm)]

/-- C9 witness: concrete evaluation at `high = [10, 12]`, `low = [5, 3]`
(raw `+DM[1] = raw -DM[1] = 2 > 0`): the tie leaves `+DM[1] = 2` and zeroes
`-DM[1]`. -/
theorem C9_dm_zeroing_order_witness :
    ((plusDMraw [(10 : ℚ), 12]).getD 1 0 = max ((12 : ℚ) - 10) 0 ∧
     (minusDMraw [(5 : ℚ), 3]).getD 1 0 = max ((5 : ℚ) - 3) 0) ∧
    (plusDMz [(10 : ℚ), 12] [(5 : ℚ), 3]).getD 1 0 =
      (if (plusDMraw [(10 : ℚ), 12]).getD 1 0 < (minusDMraw [(5 : ℚ), 3]).getD 1 0 then 0
       else (plusDMraw [(10 : ℚ), 12]).getD 1 0) ∧
    (minusDMz [(10 : ℚ), 12] [(5 : ℚ), 3]).getD 1 0 =
      (if (minusDMraw [(5 : ℚ), 3]).getD 1 0 ≤ (plusDMz [(10 : ℚ), 12] [(5 : ℚ), 3]).getD 1 0
       then 0 else (minusDMraw [(5 : ℚ), 3]).getD 1 0) ∧
    ((plusDMraw [(10 : ℚ), 12]).getD 1 0 = (minusDMraw [(5 : ℚ), 3]).getD 1 0 →
     0 < (plusDMraw [(10 : ℚ), 12]).getD 1 0 →
     (plusDMz [(10 : ℚ), 12] [(5 : ℚ), 3]).getD 1 0 = (plusDMraw [(10 : ℚ), 12]).getD 1 0 ∧
     (minusDMz [(10 : ℚ), 12] [(5 : ℚ), 3]).getD 1 0 = 0) := by
  have h := C9_dm_zeroing_order [(10 : ℚ), 12] [(5 : ℚ), 3] 1
    (by decide) (by decide) (by decide)
  refine ⟨⟨h.1.1, ?_⟩, h.2.1, h.2.2.1, h.2.2.2⟩
  have := h.1.2
  simpa using this

lemma check_new_day_self (today : ℤ) (st : RiskState) (h : today = st.date) :
    check_new_day today st = st := by simp [check_new_day, h]

/-- C10: absent a day rollover, `allocate_risk` never changes the date, the
trade count or the realized pnl — whether it accepts or rejects, the only
field it can change is `unrealized_risk`; the trade counter is incremented
(by one) only by `register_trade` and zeroed only by the daily `reset`. -/
theorem C10_allocate_frame (g : RiskParams) (today : ℤ) (amt pnl used : ℚ)
    (st st2 : RiskState) (h : today = st.date) (h2 : today = st2.date) :
    ((allocate_risk g today amt st).2.date = st.date ∧
     (allocate_risk g today amt st).2.trades = st.trades ∧
     (allocate_risk g today amt st).2.realized = st.realized) ∧
    (register_trade today pnl used st2).trades = st2.trades + 1 ∧
    (reset today).trades = 0 := by
  refine ⟨?_, by simp [register_trade, check_new_day_self today st2 h2], rfl⟩
  by_cases hc : g.max_trades ≤ st.trades ∨ g.max_total_risk < st.unrealized_risk + amt <;>
    simp [allocate_risk, check_new_day_self today st h, hc]

/-- C10 witness: the frame conditions evaluated at a concrete state
(`trades = 4`, `realized = 5`, `unrealized_risk = 6`, allocation of `7`,
then a losing `register_trade`). -/
theorem C10_allocate_frame_witness :
    ((allocate_risk gTest 0 7 (reset 0)).2.date = (reset 0).date ∧
     (allocate_risk gTest 0 7 (reset 0)).2.trades = (reset 0).trades ∧
     (allocate_risk gTest 0 7 (reset 0)).2.realized = (reset 0).realized) ∧
    (register_trade 0 (-3) 2 { date := 0, trades := 4, realized := 5, unrealized_risk := 6 }).trades
      = { date := 0, trades := 4, realized := 5, unrealized_risk := 6 : RiskState }.trades + 1 ∧
    (reset 0).trades = 0 :=
  C10_allocate_frame gTest 0 7 (-3) 2 (reset 0)
    { date := 0, trades := 4, realized := 5, unrealized_risk := 6 } rfl rfl

/-- C6 counterexample: with `max_trades = 3` and budget `100`, four
`allocate_risk(10)` calls straight after `reset` (no `register_trade`, no
date change) ALL return `true` — the fourth is not rejected, because
`allocate_risk` never increments the trade count.  The claim predicts the
fourth call returns `false` with unchanged state. -/
theorem C6_counterexample_fourth_alloc_succeeds :
    (allocate_risk g6 0 10 (reset 0)).1 = true ∧
    (allocate_risk g6 0 10 (allocate_risk g6 0 10 (reset 0)).2).1 = true ∧
    (allocate_risk g6 0 10
      (allocate_risk g6 0 10 (allocate_risk g6 0 10 (reset 0)).2).2).1 = true ∧
    (allocate_risk g6 0 10 (allocate_risk g6 0 10
      (allocate_risk g6 0 10 (allocate_risk g6 0 10 (reset 0)).2).2).2).1 = true := by
  with_unfolding_all decide

/-- C6 (amended): `allocate_risk` never changes the trade count, so three
successful allocations do not trip the `max_trades = 3` limit: a fourth
within-budget call succeeds; a call is unconditionally rejected (returning
`false` with the state unchanged) exactly once the trade count — which only
`register_trade` increments — has reached 3. -/
theorem C6_trade_cap_binds_via_register :
    (∀ (g : RiskParams) (today : ℤ) (a : ℚ) (st : RiskState), today = st.date →
       (allocate_risk g today a st).2.trades = st.trades) ∧
    (∀ (g : RiskParams) (today : ℤ) (a : ℚ) (st : RiskState), today = st.date →
       g.max_trades = 3 → 3 ≤ st.trades →
       (allocate_risk g today a st).1 = false ∧ (allocate_risk g today a st).2 = st) ∧
    (∀ (g : RiskParams) (today : ℤ) (a : ℚ) (st : RiskState), today = st.date →
       st.trades < g.max_trades → st.unrealized_risk + a ≤ g.max_total_risk →
       (allocate_risk g today a st).1 = true) := by
  refine ⟨?_, ?_, ?_⟩
  · intro g today a st h
    by_cases hc : g.max_trades ≤ st.trades ∨ g.max_total_risk < st.unrealized_risk + a <;>
      simp [allocate_risk, check_new_day_self today st h, hc]
  · intro g today a st h hg ht
    have hc : g.max_trades ≤ st.trades ∨ g.max_total_risk < st.unrealized_risk + a :=
      Or.inl (by omega)
    simp [allocate_risk, check_new_day_self today st h, hc]
  · intro g today a st h ht hu
    have hc : ¬(g.max_trades ≤ st.trades ∨ g.max_total_risk < st.unrealized_risk + a) := by
      push_neg
      exact ⟨by omega, by linarith⟩
    simp [allocate_risk, check_new_day_self today st h, hc]

/-- C6 witness: the amended facts instantiated — an allocation of `10` keeps
`trades` at `0`; with `trades = 3` an allocation of `10` is rejected without
mutation; with `trades = 0 < 3` and room in the budget it succeeds. -/
theorem C6_trade_cap_binds_via_register_witness :
    (allocate_risk g6 0 10 (reset 0)).2.trades = (reset 0).trades ∧
    ((allocate_risk g6 0 10 { date := 0, trades := 3, realized := 0, unrealized_risk := 30 }).1
        = false ∧
     (allocate_risk g6 0 10 { date := 0, trades := 3, realized := 0, unrealized_risk := 30 }).2
        = { date := 0, trades := 3, realized := 0, unrealized_risk := 30 }) ∧
    (allocate_risk g6 0 10 (reset 0)).1 = true := by
  refine ⟨C6_trade_cap_binds_via_register.1 g6 0 10 (reset 0) rfl,
    C6_trade_cap_binds_via_register.2.1 g6 0 10
      { date := 0, trades := 3, realized := 0, unrealized_risk := 30 } rfl rfl (by decide),
    C6_trade_cap_binds_via_register.2.2 g6 0 10 (reset 0) rfl (by decide) ?_⟩
  show (0 : ℚ) + 10 ≤ 100
  norm_num

lemma rgRun_cons (g : RiskParams) (today : ℤ) (o : RGOp) (rest : List RGOp) (st : RiskState) :
    rgRun g today (o :: rest) st = rgRun g today rest (rgStep g today st o) := rfl

lemma rgStep_date_trades (g : RiskParams) (today : ℤ) (st : RiskState) (o : RGOp)
    (h : today = st.date) :
    (rgStep g today st o).date = st.date ∧ st.trades ≤ (rgStep g today st o).trades := by
  cases o with
  | alloc a =>
    by_cases hc : g.max_trades ≤ st.trades ∨ g.max_total_risk < st.unrealized_risk + a <;>
      simp [rgStep, allocate_risk, check_new_day_self today st h, hc]
  | register pnl used =>
    simp [rgStep, register_trade, check_new_day_self today st h]

lemma rgRun_date_trades (g : RiskParams) (today : ℤ) (ops : List RGOp) :
    ∀ st : RiskState, today = st.date →
      (rgRun g today ops st).date = st.date ∧ st.trades ≤ (rgRun g today ops st).trades := by
  induction ops with
  | nil => intro st h; exact ⟨rfl, le_refl _⟩
  | cons o rest ih =>
    intro st h
    obtain ⟨hd, ht⟩ := rgStep_date_trades g today st o h
    rw [rgRun_cons]
    obtain ⟨hd2, ht2⟩ := ih (rgStep g today st o) (by rw [hd]; exact h)
    exact ⟨by rw [hd2, hd], le_trans ht ht2⟩

lemma rgRun_risk_inv (g : RiskParams) (today : ℤ) (hM : 0 ≤ g.max_total_risk)
    (ops : List RGOp) :
    ∀ st : RiskState, today = st.date → 0 ≤ st.unrealized_risk →
      st.unrealized_risk ≤ g.max_total_risk → rgNonneg ops →
      0 ≤ (rgRun g today ops st).unrealized_risk ∧
      (rgRun g today ops st).unrealized_risk ≤ g.max_total_risk := by
  induction ops with
  | nil => intro st _ h0 h1 _; exact ⟨h0, h1⟩
  | cons o rest ih =>
    intro st h h0 h1 hnn
    have hnnRest : rgNonneg rest := fun x hx => hnn x (List.mem_cons_of_mem _ hx)
    have hnn0 := hnn o (List.mem_cons_self o rest)
    rw [rgRun_cons]
    have hd : (rgStep g today st o).date = st.date := (rgStep_date_trades g today st o h).1
    refine ih (rgStep g today st o) (by rw [hd]; exact h) ?_ ?_ hnnRest
    case _ =>
      cases o with
      | alloc a =>
        by_cases hc : g.max_trades ≤ st.trades ∨ g.max_total_risk < st.unrealized_risk + a <;>
          simp [rgStep, allocate_risk, check_new_day_self today st h, hc]
        · exact h0
        · exact add_nonneg h0 hnn0
      | register pnl used =>
        simp [rgStep, register_trade, check_new_day_self today st h]
    case _ =>
      cases o with
      | alloc a =>
        by_cases hc : g.max_trades ≤ st.trades ∨ g.max_total_risk < st.unrealized_risk + a <;>
          simp [rgStep, allocate_risk, check_new_day_self today st h, hc]
        · exact h1
        · push_neg at hc
          linarith [hc.2]
      | register pnl used =>
        simp [rgStep, register_trade, check_new_day_self today st h]
        exact ⟨by linarith, hM⟩

/-- C3: starting from `reset` with `max_total_risk ≥ 0` and no date change,
for every sequence of `allocate_risk`/`register_trade` calls with
non-negative risk amounts: (1) after every call
`0 ≤ unrealized_risk ≤ max_total_risk` (every prefix of a call sequence is
itself a call sequence); (2) a rejected `allocate_risk` returns `false` and
leaves every field of the state unchanged; (3) once the trade count has
reached `max_trades` every further `allocate_risk` returns `false`. -/
theorem C3_risk_guard_invariants :
    (∀ (g : RiskParams) (today : ℤ) (ops : List RGOp), 0 ≤ g.max_total_risk → rgNonneg ops →
       0 ≤ (rgRun g today ops (reset today)).unrealized_risk ∧
       (rgRun g today ops (reset today)).unrealized_risk ≤ g.max_total_risk) ∧
    (∀ (g : RiskParams) (today : ℤ) (a : ℚ) (st : RiskState), today = st.date →
       (allocate_risk g today a st).1 = false → (allocate_risk g today a st).2 = st) ∧
    (∀ (g : RiskParams) (today : ℤ) (ops : List RGOp) (a : ℚ) (st : RiskState),
       today = st.date → g.max_trades ≤ st.trades →
       (allocate_risk g today a (rgRun g today ops st)).1 = false) := by
  refine ⟨?_, ?_, ?_⟩
  · intro g today ops hM hnn
    exact rgRun_risk_inv g today hM ops (reset today) rfl (le_refl 0) hM hnn
  · intro g today a st h hrej
    by_cases hc : g.max_trades ≤ st.trades ∨ g.max_total_risk < st.unrealized_risk + a
    · simp [allocate_risk, check_new_day_self today st h, hc]
    · simp [allocate_risk, check_new_day_self today st h, hc] at hrej
  · intro g today ops a st h ht
    obtain ⟨hd, htr⟩ := rgRun_date_trades g today ops st h
    have h2 : today = (rgRun g today ops st).date := by rw [hd]; exact h
    have hc : g.max_trades ≤ (rgRun g today ops st).trades ∨
        g.max_total_risk < (rgRun g today ops st).unrealized_risk + a :=
      Or.inl (by omega)
    simp [allocate_risk, check_new_day_self today (rgRun g today ops st) h2, hc]

/-- C3 witness: a concrete run (alloc 10, register a −2% trade releasing 5,
alloc 20) stays within the budget; a concrete over-budget call is rejected
without mutation; after `max_trades` registered trades a further allocation
is rejected. -/
theorem C3_risk_guard_invariants_witness :
    (0 ≤ (rgRun gTest 0 [RGOp.alloc 10, RGOp.register (-2) 5, RGOp.alloc 20]
        (reset 0)).unrealized_risk ∧
     (rgRun gTest 0 [RGOp.alloc 10, RGOp.register (-2) 5, RGOp.alloc 20]
        (reset 0)).unrealized_risk ≤ gTest.max_total_risk) ∧
    (allocate_risk gTest 0 2000 (reset 0)).2 = reset 0 ∧
    (allocate_risk gTest 0 1
      (rgRun gTest 0 [RGOp.alloc 3]
        { date := 0, trades := 5, realized := 0, unrealized_risk := 0 })).1 = false := by
  refine ⟨C3_risk_guard_invariants.1 gTest 0 _ (by norm_num [gTest]) ?_,
    C3_risk_guard_invariants.2.1 gTest 0 2000 (reset 0) rfl
      (by with_unfolding_all decide),
    C3_risk_guard_invariants.2.2 gTest 0 [RGOp.alloc 3] 1
      { date := 0, trades := 5, realized := 0, unrealized_risk := 0 } rfl (by decide)⟩
  intro o ho
  fin_cases ho <;> norm_num

lemma rollingApply_spec (f : List ℚ → ℚ) (arr : List ℚ) (w : ℕ)
    (h1 : 1 ≤ w) (h2 : w ≤ arr.length) :
    ∃ out, rollingApply f arr w = some out ∧ out.length = arr.length ∧
      (∀ i, i < w - 1 → out.getD i (some 0) = none) ∧
      (∀ i, w - 1 ≤ i → i < arr.length →
        out.getD i none = some (f ((arr.drop (i + 1 - w)).take w))) := by
  refine ⟨List.replicate (w - 1) none ++
      (List.range (arr.length - w + 1)).map (fun j => some (f ((arr.drop j).take w))),
    ?_, ?_, ?_, ?_⟩
  · unfold rollingApply
    rw [if_neg (by omega)]
  · simp only [List.length_append, List.length_replicate, List.length_map, List.length_range]
    omega
  · intro i hi
    rw [List.getD_eq_getElem?_getD, List.getElem?_append,
      if_pos (by simp only [List.length_replicate]; omega)]
    simp [List.getElem?_replicate, hi]
  · intro i hi hlt
    rw [List.getD_eq_getElem?_getD, List.getElem?_append,
      if_neg (by simp only [List.length_replicate]; omega)]
    have hidx : i - (List.replicate (w - 1) (none : QN)).length = i + 1 - w := by
      simp only [List.length_replicate]
      omega
    have hk : i + 1 - w < arr.length - w + 1 := by omega
    rw [hidx, List.getElem?_map,
      List.getElem?_eq_getElem (by simpa using hk)]
    simp

/-- C8 counterexample: for an input shorter than the window the claim says
`sma` returns an all-undefined series of the input's length (here
`some [none]`), but `_rolling_window` raises `ValueError("window too large")`,
modelled as `none`. -/
theorem C8_counterexample_short_input_raises : sma [(1 : ℚ)] 20 = none := by
  with_unfolding_all decide

/-- C8 (amended): for every input and window `w` with `1 ≤ w ≤ length`, `sma`
and the rolling deviation return a series of the input's length whose first
`w - 1` entries are undefined and whose entry `i ≥ w - 1` is the mean,
respectively the population variance (the square of the population standard
deviation returned by `std`), of the trailing `w` inputs; for inputs shorter
than the window (or `w = 0`) both functions raise `ValueError` instead of
returning an all-undefined series. -/
theorem C8_rolling_shape_and_values (arr : List ℚ) (w : ℕ)
    (h1 : 1 ≤ w) (h2 : w ≤ arr.length) :
    (∃ out, sma arr w = some out ∧ out.length = arr.length ∧
      (∀ i, i < w - 1 → out.getD i (some 0) = none) ∧
      (∀ i, w - 1 ≤ i → i < arr.length →
        out.getD i none = some (listMean ((arr.drop (i + 1 - w)).take w)))) ∧
    (∃ out, stdSq arr w = some out ∧ out.length = arr.length ∧
      (∀ i, i < w - 1 → out.getD i (some 0) = none) ∧
      (∀ i, w - 1 ≤ i → i < arr.length →
        out.getD i none = some (popVar ((arr.drop (i + 1 - w)).take w)))) :=
  ⟨rollingApply_spec listMean arr w h1 h2, rollingApply_spec popVar arr w h1 h2⟩

/-- C8 witness: the amended statement instantiated at `arr = [4, 8]`, `w = 2`
(output `[NaN, mean/variance of [4, 8]]`). -/
theorem C8_rolling_shape_and_values_witness :
    (∃ out, sma [(4 : ℚ), 8] 2 = some out ∧ out.length = ([(4 : ℚ), 8]).length ∧
      (∀ i, i < 2 - 1 → out.getD i (some 0) = none) ∧
      (∀ i, 2 - 1 ≤ i → i < ([(4 : ℚ), 8]).length →
        out.getD i none = some (listMean ((([(4 : ℚ), 8]).drop (i + 1 - 2)).take 2)))) ∧
    (∃ out, stdSq [(4 : ℚ), 8] 2 = some out ∧ out.length = ([(4 : ℚ), 8]).length ∧
      (∀ i, i < 2 - 1 → out.getD i (some 0) = none) ∧
      (∀ i, 2 - 1 ≤ i → i < ([(4 : ℚ), 8]).length →
        out.getD i none = some (popVar ((([(4 : ℚ), 8]).drop (i + 1 - 2)).take 2)))) :=
  C8_rolling_shape_and_values [(4 : ℚ), 8] 2 (by decide) (by decide)

/-- C1 (code bug): the engine builds rows `[ts, open, high, low, close, volume]`
(and itself reads the close at column 4), but `_indicators` takes its "close"
from column 3 — the LOW — its "high" from column 1 (the open) and its "low"
from column 2 (the high).  On `c1Input` every close is 20 while the lows dip:
`generate` returns "long" (the last LOW is below the lower band of the LOW
series, with RSI of the lows < 30 and its ADX reading < 25), yet under the
claimed close-based reading of the very same rule (`generateClaim`) the result
is "none" — the close sits exactly on both bands, so neither entry condition
can hold.  The claim "the checks are evaluated on the close price of the last
bar" is therefore false of the code. -/
theorem C1_generate_reads_low_as_close :
    generate c1Input = some "long" ∧ generateClaim c1Input = some "none" := by
  constructor <;> with_unfolding_all decide

/-- C2 (code bug): on `c2Input` (every close 20, every low 10) the held long
exits — the strategy's "close" (column 3, the low) touches its middle band —
and `should_exit` returns that column-3 value 10 as the exit price, while the
last candle's close price is 20.  The claim "the returned exit price equals
the last candle's close price" is therefore false of the code; the triggered
flag is also computed from the low, not the close. -/
theorem C2_exit_price_is_column3 :
    should_exit "long" c2Input 20 = some (true, 10) ∧
    (c2Input.map Candle.cls).getLast? = some 20 := by
  constructor <;> with_unfolding_all decide

/-- C4 counterexample: the engine holds a long position, `c1Input` has 100
candles, and the evaluation cycle runs — but because `generate` returns
"long" (not "none"), `_evaluate` takes the entry branch, never calls
`should_exit`, submits nothing and leaves the position untouched.  The claim
says `should_exit` is called on every cycle in which a position is held. -/
theorem C4_counterexample_exit_not_checked :
    evaluate gTest 0 c1Input (some { side := "long", qty := 2 }) 20 (reset 0) 1000 sTest =
      some (noopOut (some { side := "long", qty := 2 }) 20 (reset 0)) ∧
    generate c1Input = some "long" := by
  constructor <;> with_unfolding_all decide

/-- C4 (amended): when the engine holds a position, has at least 100 candles
and `generate` returns "none" — the only case in which the code consults the
exit rule — it calls `should_exit` on the current snapshot; if triggered it
submits one reduce-only order closing the full recorded quantity, registers
`(pnl_pct, 0)` with the realized pnl computed from entry price and side, and
clears the position (FLAT); if not triggered the position and risk state are
unchanged and the engine remains in position. -/
theorem C4_in_position_cycle (g : RiskParams) (today : ℤ) (candles : List Candle)
    (p : Pos) (entry0 : ℚ) (risk : RiskState) (balance : ℚ) (s : Settings)
    (ex : Bool) (price : ℚ)
    (h100 : 100 ≤ candles.length)
    (hsig : generate candles = some "none")
    (hexit : should_exit p.side.toLower candles entry0 = some (ex, price)) :
    evaluate g today candles (some p) entry0 risk balance s =
      some { calledShouldExit := true,
             orderQty := none,
             reduceOnlyQty := if ex then some p.qty else none,
             allocCalled := none,
             registered := if ex then some (closePnl p.side price entry0, 0) else none,
             pos := if ex then none else some p,
             entry_price := entry0,
             risk := if ex then register_trade today (closePnl p.side price entry0) 0 risk
                     else risk } := by
  unfold evaluate
  rw [if_neg (by omega), hsig]
  simp only [Option.some_bind, beq_self_eq_true, if_true, hexit, Option.map_some']
  cases ex with
  | true => simp [close_position]
  | false => simp [noopOut]

/-- C4 witness: on `c2Input` with a held long of quantity 2 and entry 20, the
signal is "none", the exit triggers at the strategy's price 10, and the cycle
closes the full quantity, registers `(-50, 0)` and goes FLAT. -/
theorem C4_in_position_cycle_witness :
    evaluate gTest 0 c2Input (some { side := "long", qty := 2 }) 20 (reset 0) 1000 sTest =
      some { calledShouldExit := true, orderQty := none, reduceOnlyQty := some 2,
             allocCalled := none, registered := some (-50, 0), pos := none,
             entry_price := 20, risk := register_trade 0 (-50) 0 (reset 0) } := by
  rw [C4_in_position_cycle gTest 0 c2Input { side := "long", qty := 2 } 20 (reset 0)
    1000 sTest true 10 (by with_unfolding_all decide) (by with_unfolding_all decide)
    (by with_unfolding_all decide)]
  with_unfolding_all decide

/-- C5 counterexample: on `c1Input` (FLAT, trading allowed, balance 0.15,
`risk_per_trade` 1%, leverage 10, `qty_step = 2`) the raw quantity is
`0.15*0.01/0.3*10 = 0.05`; reading "rounded to the configured quantity step"
as rounding to a multiple of the step 2 gives 0, i.e. the claim's quantity is
`≤ 0` and it predicts no reservation, no order and FLAT — but the code runs
`round(0.05, 2)` (2 DECIMAL DIGITS), gets `0.05 > 0`, reserves risk and
submits the order. -/
theorem C5_counterexample_qty_rounding :
    evaluate gTest 0 c1Input none 0 (reset 0) (3 / 20) sTest =
      some { calledShouldExit := false, orderQty := some (1 / 20),
             reduceOnlyQty := none, allocCalled := some (3 / 2000),
             registered := none, pos := some { side := "long", qty := 1 / 20 },
             entry_price := 20,
             risk := { date := 0, trades := 0, realized := 0, unrealized_risk := 3 / 2000 } } ∧
    roundToStep ((3 / 20) * (1 / 100) / (3 / 10) * 10) 2 = 0 := by
  constructor <;> with_unfolding_all decide

/-- C5 (amended): when FLAT with an entry signal and trading allowed, the
order quantity is `round(balance * risk_per_trade / |entry - stop| * leverage,
qty_step)` — Python `round`, i.e. half-to-even at `qty_step` DECIMAL DIGITS,
not a multiple of a step size (and `qty_step` must be an int; the shipped
float default would raise) — and whenever that quantity is `≤ 0` the engine
logs, calls no `allocate_risk`, submits no order and stays FLAT; otherwise it
reserves `balance * risk_per_trade` and, on success, submits an order of
exactly that quantity. -/
theorem C5_entry_sizing (g : RiskParams) (today : ℤ) (candles : List Candle)
    (entry0 : ℚ) (risk : RiskState) (balance : ℚ) (s : Settings) (sig : String)
    (lastC : Candle)
    (h100 : 100 ≤ candles.length)
    (hsig : generate candles = some sig)
    (hne : (sig == "none") = false)
    (hallow : (is_trading_allowed g today risk).1 = true)
    (hlast : candles.getLast? = some lastC)
    (hind : (indicators candles).isSome = true)
    (hdist : abs (lastC.cls - initial_sl sig (atrLastOf candles) lastC.cls) ≠ 0) :
    evaluate g today candles none entry0 risk balance s =
      some (
        if pyRound (balance * s.risk_per_trade /
              abs (lastC.cls - initial_sl sig (atrLastOf candles) lastC.cls) * s.leverage)
            s.qty_step ≤ 0 then
          noopOut none entry0 (is_trading_allowed g today risk).2
        else if (allocate_risk g today (balance * s.risk_per_trade)
              (is_trading_allowed g today risk).2).1 then
          { calledShouldExit := false,
            orderQty := some (pyRound (balance * s.risk_per_trade /
              abs (lastC.cls - initial_sl sig (atrLastOf candles) lastC.cls) * s.leverage)
              s.qty_step),
            reduceOnlyQty := none,
            allocCalled := some (balance * s.risk_per_trade),
            registered := none,
            pos := some ⟨sig,
              pyRound (balance * s.risk_per_trade /
                abs (lastC.cls - initial_sl sig (atrLastOf candles) lastC.cls) * s.leverage)
                s.qty_step⟩,
            entry_price := lastC.cls,
            risk := (allocate_risk g today (balance * s.risk_per_trade)
              (is_trading_allowed g today risk).2).2 }
        else
          { calledShouldExit := false, orderQty := none, reduceOnlyQty := none,
            allocCalled := some (balance * s.risk_per_trade), registered := none,
            pos := none, entry_price := entry0,
            risk := (allocate_risk g today (balance * s.risk_per_trade)
              (is_trading_allowed g today risk).2).2 }) := by
  obtain ⟨ind, hind2⟩ := Option.isSome_iff_exists.mp hind
  have hatr : atrLastOf candles = lastQN ind.atrL := by
    unfold atrLastOf
    rw [hind2]
  rw [hatr] at hdist ⊢
  unfold evaluate
  rw [if_neg (by omega), hsig]
  simp only [Option.some_bind, hne, Bool.false_eq_true, if_false]
  rw [hallow, if_pos rfl]
  unfold open_position
  rw [hlast, hind2]
  simp only [Option.some_bind, Option.map_some']
  unfold openQty safe_qty_calc
  rw [if_neg hdist]

/-- C5 witness: on `c1Input` with balance 30 the raw quantity is
`30*0.01/0.3*10 = 10`, `round(10, 2) = 10 > 0`, the reservation of `0.3`
succeeds and the submitted order quantity is exactly 10. -/
theorem C5_entry_sizing_witness :
    evaluate gTest 0 c1Input none 0 (reset 0) 30 sTest =
      some { calledShouldExit := false, orderQty := some 10,
             reduceOnlyQty := none, allocCalled := some (3 / 10),
             registered := none, pos := some { side := "long", qty := 10 },
             entry_price := 20,
             risk := { date := 0, trades := 0, realized := 0, unrealized_risk := 3 / 10 } } := by
  rw [C5_entry_sizing gTest 0 c1Input 0 (reset 0) 30 sTest "long"
    { ts := 5940, opn := 200000000000099 / 10000000000000,
      hi := 210000000000099 / 10000000000000, lo := 7, cls := 20, vol := 1 }
    (by with_unfolding_all decide) (by with_unfolding_all rfl)
    (by with_unfolding_all rfl) (by with_unfolding_all rfl)
    (by with_unfolding_all rfl) (by with_unfolding_all rfl)
    (by with_unfolding_all decide)]
  with_unfolding_all rfl

lemma tickBucket_mono {t u : Tick} (h : t.T ≤ u.T) : tickBucket t ≤ tickBucket u := by
  unfold tickBucket
  have e : ∀ n : ℕ, n - n % 60 = 60 * (n / 60) := by
    intro n
    omega
  rw [e, e]
  exact Nat.mul_le_mul_left _ (Nat.div_le_div_right (Nat.div_le_div_right h))

lemma getLast?_drop_of_lt {α : Type} (l : List α) (n : ℕ) (h : n < l.length) :
    (l.drop n).getLast? = l.getLast? := by
  rw [List.getLast?_eq_getElem?, List.getLast?_eq_getElem?, List.getElem?_drop,
    List.length_drop]
  congr 1
  omega

lemma mem_of_getLast?_eq {α : Type} (l : List α) (a : α) (h : l.getLast? = some a) : a ∈ l := by
  obtain ⟨ys, rfl⟩ := List.getLast?_eq_some_iff.mp h
  simp

lemma push_tick_getLast? (buf : List Tick) (t : Tick) :
    (push_tick buf t).getLast? = some t := by
  unfold push_tick
  have hs : (buf ++ [t]).length = buf.length + 1 := by simp
  rcases Nat.eq_zero_or_pos ((buf ++ [t]).length - 60) with h | h
  · rw [h, List.drop_zero, List.getLast?_concat]
  · rw [getLast?_drop_of_lt _ _ (by omega), List.getLast?_concat]

lemma push_tick_ne_nil (buf : List Tick) (t : Tick) : push_tick buf t ≠ [] := by
  intro h
  have := push_tick_getLast? buf t
  rw [h] at this
  simp at this

lemma push_tick_subset (buf : List Tick) (t : Tick) :
    ∀ u ∈ push_tick buf t, u ∈ buf ∨ u = t := by
  intro u hu
  have hmem : u ∈ buf ++ [t] := (List.drop_sublist _ _).subset hu
  simpa using hmem

lemma push_tick_sorted (buf : List Tick) (t : Tick)
    (hs : List.Pairwise (· ≤ ·) (buf.map Tick.T))
    (hb : ∀ u ∈ buf, u.T ≤ t.T) :
    List.Pairwise (· ≤ ·) ((push_tick buf t).map Tick.T) := by
  have h1 : List.Pairwise (· ≤ ·) ((buf ++ [t]).map Tick.T) := by
    rw [List.map_append]
    refine List.pairwise_append.mpr ⟨hs, by simp, ?_⟩
    intro x hx y hy
    simp only [List.map_cons, List.map_nil, List.mem_singleton] at hy
    subst hy
    obtain ⟨u, hu, rfl⟩ := List.mem_map.mp hx
    exact hb u hu
  unfold push_tick
  rw [List.map_drop]
  exact List.Pairwise.sublist (List.drop_sublist _ _) h1

lemma aggregated_some (ticks : List Tick) (tl : Tick) (h : ticks.getLast? = some tl) :
    ∃ cd, aggregated ticks = some cd ∧ cd.ts = tickBucket tl := by
  have hmem : tl ∈ ticks.filter (fun t => tickBucket t = tickBucket tl) :=
    List.mem_filter.mpr ⟨mem_of_getLast?_eq _ _ h, by simp⟩
  have hne : ¬((ticks.filter (fun t => tickBucket t = tickBucket tl)).isEmpty = true) := by
    simp only [List.isEmpty_iff]
    exact fun hnil => List.ne_nil_of_mem hmem hnil
  have heq : aggregated ticks =
      if (ticks.filter (fun t => tickBucket t = tickBucket tl)).isEmpty then none
      else
        some { ts := tickBucket tl,
               opn := ((ticks.filter (fun t => tickBucket t = tickBucket tl)).map (·.p)).headD 0,
               hi := listMaxQ ((ticks.filter (fun t => tickBucket t = tickBucket tl)).map (·.p)),
               lo := listMinQ ((ticks.filter (fun t => tickBucket t = tickBucket tl)).map (·.p)),
               cls := ((ticks.filter (fun t => tickBucket t = tickBucket tl)).map (·.p)).getLastD 0,
               vol := ((ticks.filter (fun t => tickBucket t = tickBucket tl)).map (·.v)).sum } := by
    unfold aggregated
    rw [h]
  rw [heq, if_neg hne]
  exact ⟨_, rfl, rfl⟩

lemma pairwise_last_le (candles : List Candle) (lastC : Candle)
    (h : candles.getLast? = some lastC)
    (hp : List.Pairwise (· < ·) (candles.map Candle.ts)) :
    ∀ x ∈ candles.map Candle.ts, x ≤ lastC.ts := by
  obtain ⟨ys, rfl⟩ := List.getLast?_eq_some_iff.mp h
  rw [List.map_append] at hp ⊢
  obtain ⟨h1, h2, h3⟩ := List.pairwise_append.mp hp
  intro x hx
  rcases List.mem_append.mp hx with hy | hz
  · exact le_of_lt (h3 x hy lastC.ts (by simp))
  · simp only [List.map_cons, List.map_nil, List.mem_singleton] at hz
    subst hz
    exact le_refl _

lemma pairwise_dropLast_lt (candles : List Candle) (lastC : Candle)
    (h : candles.getLast? = some lastC)
    (hp : List.Pairwise (· < ·) (candles.map Candle.ts)) :
    List.Pairwise (· < ·) ((candles.dropLast).map Candle.ts) ∧
    (∀ x ∈ (candles.dropLast).map Candle.ts, x < lastC.ts) := by
  obtain ⟨ys, rfl⟩ := List.getLast?_eq_some_iff.mp h
  have hd : (ys ++ [lastC]).dropLast = ys := by
    simp
  rw [hd]
  rw [List.map_append] at hp
  obtain ⟨h1, h2, h3⟩ := List.pairwise_append.mp hp
  exact ⟨h1, fun x hx => h3 x hx lastC.ts (by simp)⟩

lemma storeCandle_props (candles : List Candle) (cd : Candle)
    (hp : List.Pairwise (· < ·) (candles.map Candle.ts))
    (hlen : candles.length ≤ 500)
    (hlast : ∀ c, candles.getLast? = some c → c.ts ≤ cd.ts) :
    List.Pairwise (· < ·) ((storeCandle candles cd).map Candle.ts) ∧
    (storeCandle candles cd).length ≤ 500 ∧
    (storeCandle candles cd).getLast? = some cd := by
  cases hl : candles.getLast? with
  | none =>
    rw [List.getLast?_eq_none_iff] at hl
    subst hl
    simp [storeCandle, storeRaw]
  | some lastC =>
    have heq : storeRaw candles cd =
        if lastC.ts = cd.ts then candles.dropLast ++ [cd] else candles ++ [cd] := by
      unfold storeRaw
      rw [hl]
    have hle := hlast lastC hl
    obtain ⟨hdp, hdlt⟩ := pairwise_dropLast_lt candles lastC hl hp
    have hlen0 : 0 < candles.length := by
      rcases candles with _ | _
      · simp at hl
      · simp
    unfold storeCandle
    by_cases he : lastC.ts = cd.ts
    · rw [heq, if_pos he]
      have hlen1 : (candles.dropLast ++ [cd]).length = candles.length := by
        simp only [List.length_append, List.length_dropLast, List.length_cons,
          List.length_nil]
        omega
      rw [if_neg (by omega)]
      refine ⟨?_, by omega, List.getLast?_concat _⟩
      rw [List.map_append]
      refine List.pairwise_append.mpr ⟨hdp, by simp, ?_⟩
      intro x hx y hy
      simp only [List.map_cons, List.map_nil, List.mem_singleton] at hy
      subst hy
      exact he ▸ hdlt x hx
    · rw [heq, if_neg he]
      have hlt : lastC.ts < cd.ts := lt_of_le_of_ne hle he
      have hall : ∀ x ∈ candles.map Candle.ts, x < cd.ts := fun x hx =>
        lt_of_le_of_lt (pairwise_last_le candles lastC hl hp x hx) hlt
      have hpApp : List.Pairwise (· < ·) ((candles ++ [cd]).map Candle.ts) := by
        rw [List.map_append]
        refine List.pairwise_append.mpr ⟨hp, by simp, ?_⟩
        intro x hx y hy
        simp only [List.map_cons, List.map_nil, List.mem_singleton] at hy
        subst hy
        exact hall x hx
      have hlapp : (candles ++ [cd]).length = candles.length + 1 := by simp
      by_cases hc : 500 < (candles ++ [cd]).length
      · rw [if_pos hc]
        refine ⟨?_, ?_, ?_⟩
        · rw [List.map_drop]
          exact List.Pairwise.sublist (List.drop_sublist _ _) hpApp
        · rw [List.length_drop]
          omega
        · rw [getLast?_drop_of_lt _ _ (by omega), List.getLast?_concat]
      · rw [if_neg hc]
        exact ⟨hpApp, by omega, List.getLast?_concat _⟩

lemma aggStep_push_inv (st : List Tick × List Candle) (t : Tick)
    (hI : aggInv st) (hb : ∀ u ∈ st.1, u.T ≤ t.T) :
    aggInv (aggStep st (AggOp.push t)) := by
  obtain ⟨hs, hp, hlen, hlast, hne⟩ := hI
  show aggInv (push_tick st.1 t, st.2)
  refine ⟨push_tick_sorted st.1 t hs hb, hp, hlen, ?_,
    fun _ => push_tick_ne_nil st.1 t⟩
  intro cd hcd u hu
  rw [show (push_tick st.1 t, st.2).1 = push_tick st.1 t from rfl,
    push_tick_getLast? st.1 t] at hu
  injection hu with hu
  subst hu
  have h2 : st.2 ≠ [] := fun hnil => by rw [hnil] at hcd; simp at hcd
  have h3 : st.1 ≠ [] := hne h2
  obtain ⟨v, hv⟩ := Option.isSome_iff_exists.mp (List.getLast?_isSome.mpr h3)
  exact le_trans (hlast cd hcd v hv) (tickBucket_mono (hb v (mem_of_getLast?_eq _ _ hv)))

lemma aggStep_build_inv (st : List Tick × List Candle) (hI : aggInv st) :
    aggInv (aggStep st AggOp.build) := by
  obtain ⟨hs, hp, hlen, hlast, hne⟩ := hI
  show aggInv (st.1, build_candle st.1 st.2)
  unfold build_candle
  cases hL : st.1.getLast? with
  | none =>
    have hA : aggregated st.1 = none := by
      unfold aggregated
      rw [hL]
    rw [hA]
    exact ⟨hs, hp, hlen, hlast, hne⟩
  | some tl =>
    obtain ⟨cd, hagg, hts⟩ := aggregated_some st.1 tl hL
    rw [hagg]
    have hlast2 : ∀ c, st.2.getLast? = some c → c.ts ≤ cd.ts := by
      intro c hc
      rw [hts]
      exact hlast c hc tl hL
    obtain ⟨hp2, hlen2, hl2⟩ := storeCandle_props st.2 cd hp hlen hlast2
    refine ⟨hs, hp2, hlen2, ?_, ?_⟩
    · intro c hc u hu
      rw [show (st.1, storeCandle st.2 cd).2 = storeCandle st.2 cd from rfl, hl2] at hc
      injection hc with hc
      subst hc
      rw [show (st.1, storeCandle st.2 cd).1 = st.1 from rfl, hL] at hu
      injection hu with hu
      subst hu
      rw [hts]
    · intro _ hnil
      rw [hnil] at hL
      simp at hL

lemma runAgg_inv_aux (ops : List AggOp) :
    ∀ st, aggInv st → List.Pairwise (· ≤ ·) (pushedTs ops) →
      (∀ x ∈ pushedTs ops, ∀ u ∈ st.1, u.T ≤ x) →
      aggInv (ops.foldl aggStep st) := by
  induction ops with
  | nil =>
    intro st hI _ _
    exact hI
  | cons o rest ih =>
    intro st hI hP hAcc
    rw [List.foldl_cons]
    cases o with
    | push t =>
      have hps : pushedTs (AggOp.push t :: rest) = t.T :: pushedTs rest := rfl
      rw [hps] at hP hAcc
      have hbt : ∀ u ∈ st.1, u.T ≤ t.T := fun u hu => hAcc t.T (by simp) u hu
      refine ih (aggStep st (AggOp.push t)) (aggStep_push_inv st t hI hbt)
        (List.pairwise_cons.mp hP).2 ?_
      intro x hx u hu
      rcases push_tick_subset st.1 t u hu with h | h
      · exact hAcc x (by simp [hx]) u h
      · subst h
        exact (List.pairwise_cons.mp hP).1 x hx
    | build =>
      have hps : pushedTs (AggOp.build :: rest) = pushedTs rest := rfl
      rw [hps] at hP hAcc
      exact ih (aggStep st AggOp.build) (aggStep_build_inv st hI) hP hAcc

/-- C7 counterexample: with ticks appended out of timestamp order (bucket 120
first, then bucket 0), two aggregation passes leave the stored bucket list
`[120, 0]` — the second candle's bucket is OLDER, so the list is not strictly
increasing and the appended candle is not for a newer bucket, contradicting
the claim for arbitrary timestamp order. -/
theorem C7_counterexample_out_of_order :
    ((runAgg c7ops).2.map Candle.ts) = [120, 0] ∧ decide ((120 : ℕ) < 0) = false := by
  exact ⟨by with_unfolding_all rfl, rfl⟩

/-- C7 (amended): provided ticks are appended in NONDECREASING timestamp
order, the stored candle list always has strictly increasing `bucket_start`
values and at most 500 entries; moreover, for any state, a recomputed candle
whose bucket equals the last stored candle's bucket replaces it, a candle for
any other bucket is appended (a newer one, under in-order ticks), and the
500-cap is enforced by dropping the oldest entries. -/
theorem C7_series_invariant :
    (∀ ops : List AggOp, List.Pairwise (· ≤ ·) (pushedTs ops) →
       List.Pairwise (· < ·) ((runAgg ops).2.map Candle.ts) ∧
       (runAgg ops).2.length ≤ 500) ∧
    (∀ (ticks : List Tick) (candles : List Candle) (cd lastC : Candle),
       aggregated ticks = some cd → candles.getLast? = some lastC → lastC.ts = cd.ts →
       build_candle ticks candles =
         (if 500 < (candles.dropLast ++ [cd]).length then
            (candles.dropLast ++ [cd]).drop ((candles.dropLast ++ [cd]).length - 500)
          else candles.dropLast ++ [cd])) ∧
    (∀ (ticks : List Tick) (candles : List Candle) (cd lastC : Candle),
       aggregated ticks = some cd → candles.getLast? = some lastC → lastC.ts ≠ cd.ts →
       build_candle ticks candles =
         (if 500 < (candles ++ [cd]).length then
            (candles ++ [cd]).drop ((candles ++ [cd]).length - 500)
          else candles ++ [cd])) := by
  refine ⟨?_, ?_, ?_⟩
  · intro ops hP
    have h := runAgg_inv_aux ops ([], [])
      ⟨by simp, by simp, by simp, by simp, by simp⟩ hP (by simp)
    exact ⟨h.2.1, h.2.2.1⟩
  · intro ticks candles cd lastC hagg hl he
    have heq : storeRaw candles cd =
        if lastC.ts = cd.ts then candles.dropLast ++ [cd] else candles ++ [cd] := by
      unfold storeRaw
      rw [hl]
    unfold build_candle
    rw [hagg]
    show storeCandle candles cd = _
    unfold storeCandle
    rw [heq, if_pos he]
  · intro ticks candles cd lastC hagg hl he
    have heq : storeRaw candles cd =
        if lastC.ts = cd.ts then candles.dropLast ++ [cd] else candles ++ [cd] := by
      unfold storeRaw
      rw [hl]
    unfold build_candle
    rw [hagg]
    show storeCandle candles cd = _
    unfold storeCandle
    rw [heq, if_neg he]

/-- C7 witness: in-order ticks (buckets 0 then 120) yield the strictly
increasing bucket list of length ≤ 500; a same-bucket candle replaces the
last stored candle; a different-bucket candle is appended. -/
theorem C7_series_invariant_witness :
    (List.Pairwise (· < ·)
       ((runAgg [AggOp.push tk30, AggOp.build, AggOp.push tk120, AggOp.build]).2.map
          Candle.ts) ∧
     (runAgg [AggOp.push tk30, AggOp.build, AggOp.push tk120, AggOp.build]).2.length ≤ 500) ∧
    (build_candle [tk30] [cOld] =
      (if 500 < ([cOld].dropLast ++ [cAgg0]).length then
         ([cOld].dropLast ++ [cAgg0]).drop (([cOld].dropLast ++ [cAgg0]).length - 500)
       else [cOld].dropLast ++ [cAgg0])) ∧
    (build_candle [tk90] [cOld] =
      (if 500 < ([cOld] ++ [cAgg60]).length then
         ([cOld] ++ [cAgg60]).drop (([cOld] ++ [cAgg60]).length - 500)
       else [cOld] ++ [cAgg60])) := by
  refine ⟨C7_series_invariant.1 _ (by decide), ?_, ?_⟩
  · exact C7_series_invariant.2.1 [tk30] [cOld] cAgg0 cOld
      (by with_unfolding_all rfl) (by with_unfolding_all rfl) (by with_unfolding_all rfl)
  · exact C7_series_invariant.2.2 [tk90] [cOld] cAgg60 cOld
      (by with_unfolding_all rfl) (by with_unfolding_all rfl) (by with_unfolding_all decide)

end Algo
